import Mathlib

/-!
# Verification of gitingest_lite (scan / filter / render pipeline)

Shallow embedding of the repository `phamhung075/gitingest_lite`:

* `src/gitingest_lite/ingest_from_query.py` — pattern matcher
  (`_should_exclude`, `_should_include`, fnmatch semantics), tree scanner
  (`_scan_directory`), digest renderer (`_extract_files_content`,
  `_create_file_content_string`, `_create_tree_structure`, `_ingest_directory`).
* `src/gitingest_lite/parse_query.py` — URL parsing (`_parse_url`,
  `_is_valid_git_commit_hash`), pattern parsing (`_parse_patterns`,
  `_normalize_pattern`, `_override_ignore_patterns`, `parse_gitignore`,
  `parse_query` local branch).

Modelling conventions:

* Paths are POSIX strings (`os.sep = "/"`); `os.path.abspath`/`normpath` are
  modelled as the identity on the already absolute, normalized path space;
  `os.path.join p item` is `p ++ "/" ++ item`; `os.path.basename` takes the
  component after the last separator.
* Filesystem observations (`os.listdir`, `os.path.isfile`, `os.path.isdir`,
  `os.path.exists`, `os.path.getsize`, `os.path.realpath`, reading a file,
  the text/binary probe `_is_text_file`) are the fields of an abstract
  `FileSys` record.  A finite list `allReal` bounds the canonical real paths
  of directories, which is the finiteness of a real file system.
* Python `str` operations used by the code (`replace`, `split`, `strip`,
  `lstrip`, `rstrip`, `startswith`, `endswith`, `lower`, `join`, `sorted`)
  are re-implemented on `List Char` so that every definition evaluates in
  the kernel.  Python `str.lower` and `str.strip` act on full Unicode;
  the embedding uses the ASCII versions, which agree on every string the
  claims touch.
* `MAX_TOTAL_SIZE_BYTES` and `MAX_FILES` come from `gitingest_lite.constant`
  (values not in view); they are the fields of a `Limits` parameter, exactly
  as the specification speaks of configured maxima.
* `DEFAULT_IGNORE_PATTERNS` comes from the external `gitingest` package and
  is a parameter as well.
-/

namespace GitingestLite

/-! ## String helpers (Python str operations, `List Char` based) -/

/-- Python `lstrip(os.sep)`: drop every leading `/`. -/
def lstripSlash (s : String) : String :=
  String.mk (s.data.dropWhile (fun c => c == '/'))

/-- Python `rstrip('/')`: drop every trailing `/`. -/
def rstripSlash (s : String) : String :=
  String.mk ((s.data.reverse.dropWhile (fun c => c == '/')).reverse)

/-- Python `rstrip('\\/')`: drop every trailing `/` or `\ `. -/
def rstripSeps (s : String) : String :=
  String.mk ((s.data.reverse.dropWhile (fun c => c == '/' || c == '\\')).reverse)

/-- Python `strip("/")`. -/
def stripSlashes (s : String) : String :=
  rstripSlash (lstripSlash s)

/-- Python `str.strip()` (ASCII whitespace). -/
def trimStr (s : String) : String :=
  String.mk (((s.data.dropWhile Char.isWhitespace).reverse.dropWhile Char.isWhitespace).reverse)

/-- Python `a.startswith b`. -/
def startsWithStr (s pre : String) : Bool :=
  pre.data.isPrefixOf s.data

/-- Python `a.endswith b`. -/
def endsWithStr (s suf : String) : Bool :=
  suf.data.reverse.isPrefixOf s.data.reverse

/-- Python `str.lower` (ASCII; agrees with Python on ASCII strings). -/
def lowerStr (s : String) : String :=
  String.mk (s.data.map Char.toLower)

/-- Auxiliary for `splitOnChar`: accumulates the current field (reversed). -/
def splitOnCharAux (sep : Char) : List Char → List Char → List String
  | acc, [] => [String.mk acc.reverse]
  | acc, c :: rest =>
    if c == sep then String.mk acc.reverse :: splitOnCharAux sep [] rest
    else splitOnCharAux sep (c :: acc) rest

/-- Python `s.split(sep)` for a one-character separator
(`"".split("/") = [""]`, consecutive separators yield empty fields). -/
def splitOnChar (sep : Char) (s : String) : List String :=
  splitOnCharAux sep [] s.data

/-- Python `sep.join xs`. -/
def joinWith (sep : String) : List String → String
  | [] => ""
  | [s] => s
  | s :: rest => s ++ sep ++ joinWith sep rest

/-- Auxiliary for `replaceStr`: Python `str.replace`, left to right,
non-overlapping, every occurrence.  The first argument is the length of the
remaining input (each step consumes at least one character, so it never runs
out); structural recursion on it keeps the function kernel-computable.
An empty pattern is returned unchanged (that case never arises: in the code
the pattern is always an absolute root path). -/
def replaceAllAux (pat rep : List Char) : Nat → List Char → List Char
  | 0, l => l
  | _ + 1, [] => []
  | n + 1, c :: rest =>
    if pat ≠ [] ∧ pat.isPrefixOf (c :: rest) then
      rep ++ replaceAllAux pat rep n ((c :: rest).drop pat.length)
    else
      c :: replaceAllAux pat rep n rest

/-- Python `s.replace pat rep` (all occurrences). -/
def replaceStr (s pat rep : String) : String :=
  String.mk (replaceAllAux pat.data rep.data s.data.length s.data)

/-- Python `os.path.basename`: the component after the last `/`. -/
def basenameStr (p : String) : String :=
  (splitOnChar '/' p).getLastD ""

/-- Lexicographic order on strings by code point (Python `<=` on `str`). -/
def charListLe : List Char → List Char → Bool
  | [], _ => true
  | _ :: _, [] => false
  | a :: as, b :: bs =>
    if a < b then true else if b < a then false else charListLe as bs

def strLe (a b : String) : Bool := charListLe a.data b.data

/-- Insertion sort with `strLe`; Python `sorted` on a list of strings. -/
def insertSorted (x : String) : List String → List String
  | [] => [x]
  | y :: rest => if strLe x y then x :: y :: rest else y :: insertSorted x rest

def sortStrings : List String → List String
  | [] => []
  | x :: rest => insertSorted x (sortStrings rest)

/-! ## Glob matching (Python `fnmatch.fnmatch` on POSIX) -/

/-- One compiled glob token: `*`, `?`, a literal character, or a bracket
class with optional negation (mirrors `fnmatch.translate`). -/
inductive GlobTok where
  | star
  | anyChar
  | lit (c : Char)
  | cls (neg : Bool) (content : List Char)

/-- Character-set membership for a bracket class, with `a-b` ranges
(as in the regex `fnmatch.translate` produces). -/
def matchSet (c : Char) : List Char → Bool
  | a :: '-' :: b :: rest => (a ≤ c && c ≤ b) || matchSet c rest
  | a :: rest => (a == c) || matchSet c rest
  | [] => false

/-- Negation flag of a bracket class: the `!` right after `[`
(`fnmatch.translate`). -/
def bracketNeg (ps : List Char) : Bool := ps.head? == some '!'

/-- The class body after `[` and the optional `!`. -/
def bracketBody (ps : List Char) : List Char :=
  if bracketNeg ps then ps.tail else ps

/-- A `]` directly after `[` or `[!` is a literal member of the class. -/
def bracketLead (ps : List Char) : List Char :=
  if (bracketBody ps).head? == some ']' then [']'] else []

/-- The class body with the optional literal leading `]` removed. -/
def bracketBody2 (ps : List Char) : List Char :=
  if (bracketBody ps).head? == some ']' then (bracketBody ps).tail else bracketBody ps

/-- Parse the bracket class following a `[`: the compiled token and the
pattern after the closing `]`, or `none` when the bracket never closes. -/
def bracketRest (ps : List Char) : Option (GlobTok × List Char) :=
  if ((bracketBody2 ps).dropWhile (fun c => !(c == ']'))).isEmpty then none
  else
    some (.cls (bracketNeg ps)
      (bracketLead ps ++ (bracketBody2 ps).takeWhile (fun c => !(c == ']'))),
      ((bracketBody2 ps).dropWhile (fun c => !(c == ']'))).tail)

/-- Compile a glob pattern to tokens, as `fnmatch.translate` does:
`*`, `?`, `[...]` with `!` negation and a literal leading `]`;
an unterminated `[` is a literal.  The first argument is the length of the
remaining pattern (every step consumes at least one character); structural
recursion on it keeps the compiler kernel-computable. -/
def compilePatFuel : Nat → List Char → List GlobTok
  | 0, _ => []
  | _ + 1, [] => []
  | n + 1, '*' :: ps => .star :: compilePatFuel n ps
  | n + 1, '?' :: ps => .anyChar :: compilePatFuel n ps
  | n + 1, '[' :: ps =>
    match bracketRest ps with
    | some (tok, rest) => tok :: compilePatFuel n rest
    | none => .lit '[' :: compilePatFuel n ps
  | n + 1, c :: ps => .lit c :: compilePatFuel n ps

def compilePat (l : List Char) : List GlobTok := compilePatFuel l.length l

/-- Match a compiled glob against a character list.  `*` matches any run of
characters (separators included, as `fnmatch` does), `?` one character,
a class one character of its set (negated by `!`); full match.  The first
argument is the sum of the two lengths (each step lowers it); structural
recursion on it keeps the matcher kernel-computable. -/
def globMatchFuel : Nat → List GlobTok → List Char → Bool
  | 0, ps, s => ps.isEmpty && s.isEmpty
  | _ + 1, [], [] => true
  | _ + 1, [], _ :: _ => false
  | n + 1, .star :: ps, [] => globMatchFuel n ps []
  | n + 1, .star :: ps, c :: s =>
    globMatchFuel n ps (c :: s) || globMatchFuel n (.star :: ps) s
  | n + 1, .anyChar :: ps, _ :: s => globMatchFuel n ps s
  | _ + 1, .anyChar :: _, [] => false
  | n + 1, .lit a :: ps, c :: s => (a == c) && globMatchFuel n ps s
  | _ + 1, .lit _ :: _, [] => false
  | n + 1, .cls neg content :: ps, c :: s =>
    (matchSet c content != neg) && globMatchFuel n ps s
  | _ + 1, .cls _ _ :: _, [] => false

def globMatch (ps : List GlobTok) (s : List Char) : Bool :=
  globMatchFuel (ps.length + s.length) ps s

/-- Python `fnmatch.fnmatch name pat` on POSIX
(`os.path.normcase` is the identity there). -/
def fnmatch (name pat : String) : Bool :=
  globMatch (compilePat pat.data) name.data

/-! ## Pattern matcher (`_should_exclude`, `_should_include`) -/

/-- Embeds `_should_exclude` (ingest_from_query.py:17).  The relative path is
the path with every occurrence of `basePath` removed (Python `str.replace`),
leading separators stripped and backslashes normalized.  A pattern ending in
`/` is a directory pattern: it matches the path itself, any path under it,
and any ancestor-segment equality; other patterns go through `fnmatch`.
Empty patterns are skipped.  The loop returns at the first match. -/
def shouldExclude (path basePath : String) (ignorePatterns : List String) : Bool :=
  let relPath := replaceStr (lstripSlash (replaceStr path basePath "")) "\\" "/"
  ignorePatterns.any fun pattern =>
    if pattern == "" then false
    else
      let patternBase := rstripSlash pattern
      if endsWithStr pattern "/" then
        (relPath == patternBase || startsWithStr relPath (patternBase ++ "/"))
        || (List.range (splitOnChar '/' relPath).length).any fun i =>
             joinWith "/" ((splitOnChar '/' relPath).take (i + 1)) == patternBase
      else fnmatch relPath pattern

/-- Embeds `_should_include` (ingest_from_query.py:7): true when at least one
include pattern fnmatch-matches the relative path (same `replace`-based
relative path, without backslash normalization). -/
def shouldInclude (path basePath : String) (includePatterns : List String) : Bool :=
  let relPath := lstripSlash (replaceStr path basePath "")
  includePatterns.any fun pattern => fnmatch relPath pattern

/-! ## Data model (`_scan_directory` result dictionaries) -/

/-- The dictionaries `_scan_directory` builds: `type == "file"` carries
name, path, size, content; `type == "directory"` carries name, path, size,
file_count, dir_count, ignore_content (always False, never read) and the
ordered children list. -/
inductive Node where
  | file (name path : String) (size : Nat) (content : String)
  | dir (name path : String) (size fileCount dirCount : Nat)
        (ignoreContent : Bool) (children : List Node)

def nodeSize : Node → Nat
  | .file _ _ s _ => s
  | .dir _ _ s _ _ _ _ => s

def nodeFileCount : Node → Nat
  | .file _ _ _ _ => 0
  | .dir _ _ _ fc _ _ _ => fc

def nodeDirCount : Node → Nat
  | .file _ _ _ _ => 0
  | .dir _ _ _ _ dc _ _ => dc

def nodePath : Node → String
  | .file _ p _ _ => p
  | .dir _ p _ _ _ _ _ => p

/-- `_scan_directory` always returns a directory dictionary. -/
def isDirNode : Node → Bool
  | .file _ _ _ _ => false
  | .dir _ _ _ _ _ _ _ => true

/-- The `stats` dictionary threaded through the scan:
`total_files` and `total_size`. -/
structure Stats where
  totalFiles : Nat
  totalSize : Nat
deriving DecidableEq

/-- The fields of the query dictionary that `_scan_directory`,
`_extract_files_content` and `_create_tree_structure` read.  Python models
an absent include list as `None`; only its truthiness is ever used, so `[]`
stands for both `None` and an empty list. -/
structure ScanQuery where
  localPath : String
  ignorePatterns : List String
  includePatterns : List String
  maxFileSize : Nat
  slug : String

/-- `MAX_TOTAL_SIZE_BYTES` and `MAX_FILES` from `gitingest_lite.constant`
(module not in view; the claims hold for every value). -/
structure Limits where
  maxTotalSize : Nat
  maxFiles : Nat

/-- The filesystem observations `_scan_directory` makes, as an abstract
record: `os.path.exists`, `os.path.isdir`, `os.path.isfile`, `os.listdir`
(`none` models a `PermissionError`), `os.path.getsize`, `_is_text_file`,
`_read_file_content`, `os.path.realpath`.  `allReal` is a finite list
bounding the canonical real paths of directories — the finiteness of a real
file system — so that the walk provably terminates. -/
structure FileSys where
  pexists : String → Bool
  isDir : String → Bool
  isFile : String → Bool
  entries : String → Option (List String)
  fsize : String → Nat
  isText : String → Bool
  readContent : String → String
  realPath : String → String
  allReal : List String
  realMem : ∀ p, isDir p = true → realPath p ∈ allReal

/-- The running directory result: `children`, `size`, `file_count`,
`dir_count` of the dictionary under construction. -/
structure DirAcc where
  children : List Node
  size : Nat
  fileCount : Nat
  dirCount : Nat

/-- The placeholder dictionary returned for a nonexistent path, for a
non-directory, or for an already visited real path
(ingest_from_query.py:100-142). -/
def emptyDirNode (path : String) : Node :=
  .dir (basenameStr path) path 0 0 0 false []

/-- Lines 126-128: the base path is re-anchored at the current directory
whenever the current path equals or extends it
(`if path == base_path or path.startswith(base_path): base_path = path`). -/
def adjustedBase (q : ScanQuery) (path : String) : String :=
  let base0 := rstripSeps q.localPath
  if path == base0 || startsWithStr path base0 then path else base0

/-- Python truthiness of `query["include_patterns"]`
(`None` and `[]` are both falsy). -/
def includeTruthy (q : ScanQuery) : Bool := !q.includePatterns.isEmpty

/-! ## Tree scanner (`_scan_directory`) -/

/-- The item loop of `_scan_directory` (ingest_from_query.py:161-226).
`recur` is the recursive call for subdirectories; the loop threads `seen`
(the Python shared `seen_paths` set), `stats` and the result under
construction.  For each item, in order: exclusion; for files the include
filter, the total-size admission check (`continue`), the file-count ceiling
(`break`), then admission with text probe; for directories the recursive
scan, appended unless include patterns are active and it holds no file. -/
def scanItemsGo (fs : FileSys) (q : ScanQuery) (lim : Limits)
    (recur : String → List String → Stats → Node × List String × Stats)
    (basePath dirPath : String) :
    List String → List String → Stats → DirAcc → DirAcc × List String × Stats
  | [], seen, stats, acc => (acc, seen, stats)
  | item :: rest, seen, stats, acc =>
    let itemPath := dirPath ++ "/" ++ item
    if shouldExclude itemPath basePath q.ignorePatterns then
      scanItemsGo fs q lim recur basePath dirPath rest seen stats acc
    else if fs.isFile itemPath then
      if includeTruthy q && !shouldInclude itemPath basePath q.includePatterns then
        scanItemsGo fs q lim recur basePath dirPath rest seen stats acc
      else
        let fileSize := fs.fsize itemPath
        if stats.totalSize + fileSize > lim.maxTotalSize then
          scanItemsGo fs q lim recur basePath dirPath rest seen stats acc
        else if stats.totalFiles ≥ lim.maxFiles then
          (acc, seen, stats)
        else
          let content :=
            if fs.isText itemPath then fs.readContent itemPath else "[Non-text file]"
          scanItemsGo fs q lim recur basePath dirPath rest seen
            ⟨stats.totalFiles + 1, stats.totalSize + fileSize⟩
            ⟨acc.children ++ [Node.file item itemPath fileSize content],
             acc.size + fileSize, acc.fileCount + 1, acc.dirCount⟩
    else if fs.isDir itemPath then
      let r := recur itemPath seen stats
      if !includeTruthy q || nodeFileCount r.1 > 0 then
        scanItemsGo fs q lim recur basePath dirPath rest r.2.1 r.2.2
          ⟨acc.children ++ [r.1], acc.size + nodeSize r.1,
           acc.fileCount + nodeFileCount r.1, acc.dirCount + 1 + nodeDirCount r.1⟩
      else
        scanItemsGo fs q lim recur basePath dirPath rest r.2.1 r.2.2 acc
    else
      scanItemsGo fs q lim recur basePath dirPath rest seen stats acc

/-- Embeds `_scan_directory` (ingest_from_query.py:81-231), with an explicit
recursion budget so the definition is structural and kernel-computable;
`scanDirectory` below instantiates the budget with a provably sufficient
value and `scan_fuel_stable` shows every sufficient budget gives the same
result (the walk really terminates).  Per call: normalize the path
(`rstrip`, with `abspath`/`normpath` the identity on this path space),
placeholder for nonexistent paths and non-directories, re-anchor the base,
placeholder for an already seen real path, record the real path, then the
item loop over the sorted listing (a `PermissionError` in `os.listdir`
leaves the result empty).  A subdirectory dictionary is always truthy, so
the Python guard `if subdir and ...` is just its second conjunct. -/
def scanFuel (fs : FileSys) (q : ScanQuery) (lim : Limits) :
    Nat → String → List String → Stats → Node × List String × Stats
  | 0, path0, seen, stats => (emptyDirNode (rstripSeps path0), seen, stats)
  | fuel + 1, path0, seen, stats =>
    let path := rstripSeps path0
    if !fs.pexists path then (emptyDirNode path, seen, stats)
    else if !fs.isDir path then (emptyDirNode path, seen, stats)
    else
      let basePath := adjustedBase q path
      let rp := fs.realPath path
      if seen.contains rp then (emptyDirNode path, seen, stats)
      else
        match fs.entries path with
        | none => (Node.dir (basenameStr path) path 0 0 0 false [], rp :: seen, stats)
        | some items =>
          let r := scanItemsGo fs q lim (fun p s st => scanFuel fs q lim fuel p s st)
                     basePath path (sortStrings items) (rp :: seen) stats ⟨[], 0, 0, 0⟩
          (Node.dir (basenameStr path) path r.1.size r.1.fileCount r.1.dirCount false
             r.1.children,
           r.2.1, r.2.2)

/-- Real paths not yet visited: an upper bound on the remaining recursion
depth of the walk. -/
def unseenCount (fs : FileSys) (seen : List String) : Nat :=
  (fs.allReal.filter (fun r => !seen.contains r)).length

/-- `_scan_directory` itself: the budget `unseenCount fs seen + 1` is always
sufficient (`scan_fuel_stable`). -/
def scanDirectory (fs : FileSys) (q : ScanQuery) (lim : Limits)
    (path : String) (seen : List String) (stats : Stats) :
    Node × List String × Stats :=
  scanFuel fs q lim (unseenCount fs seen + 1) path seen stats

/-! ## Digest renderer (`_extract_files_content`, `_create_file_content_string`,
`_create_tree_structure`, `_ingest_directory`) -/

/-- The file records `_extract_files_content` collects:
`path` (the node path with every occurrence of the local path removed),
`content` (`none` models Python `None` for oversized files), `size`. -/
structure FileInfo where
  path : String
  content : Option String
  size : Nat
deriving DecidableEq

mutual
/-- The file nodes of a scanned tree, in depth-first order. -/
def filesOfNode : Node → List Node
  | .file name path size content => [.file name path size content]
  | .dir _ _ _ _ _ _ children => filesOfList children
def filesOfList : List Node → List Node
  | [] => []
  | c :: rest => filesOfNode c ++ filesOfList rest
end

mutual
/-- Embeds `_extract_files_content` (ingest_from_query.py:234): collect every
file node whose content is not the `"[Non-text file]"` sentinel, replacing
`query["local_path"]` in its path and nulling the content of files larger
than `max_file_size`; directories recurse over children in order. -/
def extractFilesContent (localPath : String) (maxFileSize : Nat) :
    Node → List FileInfo
  | .file _ path size content =>
    if content ≠ "[Non-text file]" then
      [⟨replaceStr path localPath "",
        if size > maxFileSize then none else some content, size⟩]
    else []
  | .dir _ _ _ _ _ _ children => extractFilesList localPath maxFileSize children
def extractFilesList (localPath : String) (maxFileSize : Nat) :
    List Node → List FileInfo
  | [] => []
  | c :: rest =>
    extractFilesContent localPath maxFileSize c
      ++ extractFilesList localPath maxFileSize rest
end

/-- The 48-character `=` separator line of `_create_file_content_string`. -/
def separatorLine : String := String.mk (List.replicate 48 '=') ++ "\n"

/-- Python truthiness of `file["content"]`:
`None` and the empty string are falsy. -/
def contentTruthy : Option String → Bool
  | none => false
  | some s => !(s == "")

/-- One rendered block: separator, `File: path`, separator, content,
blank line. -/
def fileBlock (f : FileInfo) : String :=
  separatorLine ++ "File: " ++ f.path ++ "\n" ++ separatorLine
    ++ f.content.getD "" ++ "\n\n"

/-- `file["path"].lower() == "/readme.md"`. -/
def isReadmePath (f : FileInfo) : Bool := lowerStr f.path == "/readme.md"

/-- The first loop of `_create_file_content_string` (ingest_from_query.py:269):
skip files with falsy content; emit the first one whose lowered path is
`/readme.md` and stop. -/
def readmeFirstPart : List FileInfo → String
  | [] => ""
  | f :: rest =>
    if !contentTruthy f.content then readmeFirstPart rest
    else if isReadmePath f then fileBlock f
    else readmeFirstPart rest

/-- The second loop (ingest_from_query.py:281): every remaining file with
truthy content, in list order, skipping the README path. -/
def otherFilesPart : List FileInfo → String
  | [] => ""
  | f :: rest =>
    if !contentTruthy f.content || isReadmePath f then otherFilesPart rest
    else fileBlock f ++ otherFilesPart rest

/-- Embeds `_create_file_content_string` (ingest_from_query.py:263). -/
def createFileContentString (files : List FileInfo) : String :=
  readmeFirstPart files ++ otherFilesPart files

mutual
/-- Embeds `_create_tree_structure` (ingest_from_query.py:312): an empty node
name is replaced by the query slug; a named node is printed with its
box-drawing connector (`└── ` for the last child, `├── ` otherwise) and a
trailing `/` for directories; children are rendered with the prefix extended
by `    ` under a last child and `│   ` otherwise (unchanged when the name
stayed empty). -/
def createTreeStructure (slug : String) (node : Node) (pref : String)
    (isLast : Bool) : String :=
  match node with
  | .file name0 _ _ _ =>
    let name := if name0 == "" then slug else name0
    if name == "" then "" else
      pref ++ (if isLast then "└── " else "├── ") ++ name ++ "\n"
  | .dir name0 _ _ _ _ _ children =>
    let name := if name0 == "" then slug else name0
    let line :=
      if name == "" then "" else
        pref ++ (if isLast then "└── " else "├── ") ++ name ++ "/" ++ "\n"
    let pref2 :=
      if name == "" then pref else pref ++ (if isLast then "    " else "│   ")
    line ++ treeChildren slug children pref2
def treeChildren (slug : String) (children : List Node) (pref : String) : String :=
  match children with
  | [] => ""
  | [c] => createTreeStructure slug c pref true
  | c :: rest => createTreeStructure slug c pref false ++ treeChildren slug rest pref
end

/-- Embeds `_ingest_directory` (ingest_from_query.py:391) minus the summary
and token estimate (they call the external `tiktoken` encoder): the scanned
tree is rendered as the `Directory structure:` diagram and the concatenated
content string.  `_scan_directory` always returns a dictionary, hence the
`if not nodes` guard never fires. -/
def ingestDirectory (fs : FileSys) (q : ScanQuery) (lim : Limits)
    (path : String) : String × String :=
  let nodes := (scanDirectory fs q lim path [] ⟨0, 0⟩).1
  ("Directory structure:\n" ++ createTreeStructure q.slug nodes "" true,
   createFileContentString (extractFilesContent q.localPath q.maxFileSize nodes))

/-! ## Claim predicates over scanned trees -/

def sumSizes (l : List Node) : Nat := (l.map nodeSize).sum

mutual
/-- Every file in the tree passed the filters of the directory scan that
produced it: for each directory (whose decisions used `adjustedBase` of its
own path, ingest_from_query.py:127-128), every file child was not excluded
(line 168) and, when include patterns are active, was included (line 174);
directories recurse.  Include patterns constrain files only. -/
def scanFiltered (q : ScanQuery) : Node → Bool
  | .file _ _ _ _ => true
  | .dir _ path _ _ _ _ children => scanFilteredList q (adjustedBase q path) children
def scanFilteredList (q : ScanQuery) (basePath : String) : List Node → Bool
  | [] => true
  | c :: rest =>
    (match c with
     | .file _ cpath _ _ =>
       !shouldExclude cpath basePath q.ignorePatterns
         && (!includeTruthy q || shouldInclude cpath basePath q.includePatterns)
     | .dir _ _ _ _ _ _ _ => true)
      && scanFiltered q c && scanFilteredList q basePath rest
end

/-! ## URL parsing (`_parse_url`, `_is_valid_git_commit_hash`) -/

/-- Embeds `_is_valid_git_commit_hash` (parse_query.py:72): exactly 40
characters, all in `string.hexdigits` (`0-9a-fA-F`). -/
def isValidGitCommitHash (commit : String) : Bool :=
  commit.length == 40
    && commit.data.all fun c =>
      c.isDigit || ('a' ≤ c && c ≤ 'f') || ('A' ≤ c && c ≤ 'F')

/-- The fields `_parse_url` derives from the URL path.  The Python dict also
holds `local_path`, `url` and `id`, built from `uuid` and the netloc;
they depend on the external uuid generator and no claim touches them. -/
structure UrlQuery where
  userName : String
  repoName : String
  rtype : Option String
  branch : Option String
  commit : Option String
  subpath : String
  slug : String
deriving DecidableEq

/-- Embeds `_parse_url` (parse_query.py:15-69) from the parsed URL path on:
`path_parts = parsed_url.path.strip("/").split("/")` (the scheme/netloc
handling and `unquote` are `urllib` calls on the way to this path ).
Fewer than two parts is rejected; `issues`/`pull` as the third part returns
the bare repository; with at least four parts, part 3 is `type`, part 4 is a
commit hash when `_is_valid_git_commit_hash` accepts it and a branch name
otherwise, and the remaining parts extend the subpath. -/
def parseUrlPath (urlPath : String) : Option UrlQuery :=
  match splitOnChar '/' (stripSlashes urlPath) with
  | userName :: repoName :: rest =>
    let base : UrlQuery :=
      ⟨userName, repoName, none, none, none, "/", userName ++ "-" ++ repoName⟩
    match rest with
    | [] => some base
    | t :: rest2 =>
      if t == "issues" || t == "pull" then some base
      else
        match rest2 with
        | [] => some base
        | tok :: restp =>
          if isValidGitCommitHash tok then
            some ⟨userName, repoName, some t, none, some tok,
                  "/" ++ joinWith "/" restp, userName ++ "-" ++ repoName⟩
          else
            some ⟨userName, repoName, some t, some tok, none,
                  "/" ++ joinWith "/" restp, userName ++ "-" ++ repoName⟩
  | _ => none

/-! ## Pattern parsing (`_parse_patterns`, `parse_gitignore`, `parse_query`) -/

/-- Auxiliary for `splitOnPred` (current field accumulated reversed). -/
def splitOnPredAux (sep : Char → Bool) : List Char → List Char → List String
  | acc, [] => [String.mk acc.reverse]
  | acc, c :: rest =>
    if sep c then String.mk acc.reverse :: splitOnPredAux sep [] rest
    else splitOnPredAux sep (c :: acc) rest

/-- Python `re.split(",| ", p)`: split at every comma or space. -/
def splitOnPred (sep : Char → Bool) (s : String) : List String :=
  splitOnPredAux sep [] s.data

/-- The character whitelist of `_parse_patterns` (parse_query.py:127):
alphanumeric or one of `-_./+*`.  Python `isalnum` covers all of Unicode;
ASCII agrees on every pattern the claims use. -/
def allowedPatternChar (c : Char) : Bool :=
  c.isAlphanum || c == '-' || c == '_' || c == '.' || c == '/' || c == '+' || c == '*'

/-- Embeds `_normalize_pattern` (parse_query.py:77): strip, drop leading
separators, append `*` to a pattern ending in the separator. -/
def normalizePattern (p : String) : String :=
  let p1 := lstripSlash (trimStr p)
  if endsWithStr p1 "/" then p1 ++ "*" else p1

/-- Embeds `_parse_patterns` (parse_query.py:94): split every input on commas
and spaces, drop empty fields, reject the first field with a character
outside the whitelist (Python raises `ValueError`), normalize the rest.
The Python parameter is `list[str] | str`; a single string is the one-element
list. -/
def parsePatterns (patterns : List String) : Except String (List String) :=
  let parsed :=
    (patterns.flatMap fun p => splitOnPred (fun c => c == ',' || c == ' ') p).filter
      (fun p => p ≠ "")
  match parsed.find? (fun p => !(p.data.all allowedPatternChar)) with
  | some p => Except.error ("Pattern " ++ p ++ " contains invalid characters")
  | none => Except.ok (parsed.map normalizePattern)

/-- The four derived glob forms of a directory line, and the extra `name/`
form of an extensionless file line (parse_query.py:303-317). -/
def gitignoreLinePatterns (line : String) : List String :=
  if endsWithStr line "/" then
    [rstripSlash line, rstripSlash line ++ "/**",
     "**/" ++ rstripSlash line, "**/" ++ rstripSlash line ++ "/**"]
  else
    [line]
      ++ (if !(line.data.contains '.') && !(endsWithStr line "/") then [line ++ "/"]
          else [])

/-- The raw pattern list of `parse_gitignore` before deduplication: stripped
lines, skipping blanks and `#` comments, each expanded by
`gitignoreLinePatterns`. -/
def gitignoreRawPatterns (lines : List String) : List String :=
  lines.flatMap fun l0 =>
    let l := trimStr l0
    if l ≠ "" && !startsWithStr l "#" then gitignoreLinePatterns l else []

/-- Python `list(dict.fromkeys xs)`: drop duplicates keeping the first
occurrence, preserving order (parse_query.py:324).  `seen` holds the keys
already emitted. -/
def dedupKeepFirstAux (seen : List String) : List String → List String
  | [] => []
  | x :: xs =>
    if seen.contains x then dedupKeepFirstAux seen xs
    else x :: dedupKeepFirstAux (seen ++ [x]) xs

def dedupKeepFirst (l : List String) : List String := dedupKeepFirstAux [] l

/-- Embeds `parse_gitignore` (parse_query.py:285) from the list of lines of
the ignore file (the `open`/read is the I/O boundary). -/
def parseGitignoreLines (lines : List String) : List String :=
  dedupKeepFirst (gitignoreRawPatterns lines)

/-- Embeds `_override_ignore_patterns` (parse_query.py:136):
`list(set(ignore_patterns) - set(include_patterns))`.  The Python result is
duplicate-free with set-difference membership; its element order is whatever
the hash set yields and is not specified by the language, so the embedding
fixes first-occurrence order. -/
def overrideIgnorePatterns (ignorePatterns includePatterns : List String) :
    List String :=
  dedupKeepFirst (ignorePatterns.filter (fun p => !includePatterns.contains p))

/-- The query dictionary `parse_query` builds for a local path
(parse_query.py:236-277), minus the uuid `id` and the `url = None` field. -/
structure LocalQuery where
  localPath : String
  slug : String
  subpath : String
  maxFileSize : Nat
  ignorePatterns : List String
  includePatterns : Option (List String)
deriving DecidableEq

/-- Embeds the local branch of `parse_query` (parse_query.py:236-279).
`defaults` is `DEFAULT_IGNORE_PATTERNS` (external `gitingest` package);
`gitignoreLines` is the content of the `.gitignore` found at the root
(`none` when absent); `ignorePats`/`includePats` model the user arguments
(`none` for Python `None`, falsy).  The defaults are copied, extended by the
gitignore patterns when nonempty, extended by the parsed user ignore
patterns, and — only when include patterns are given — filtered through
`_override_ignore_patterns`. -/
def parseQueryLocal (defaults : List String) (sourcePath : String)
    (maxFileSize : Nat) (gitignoreLines : Option (List String))
    (ignorePats : Option (List String)) (includePats : Option (List String)) :
    Except String LocalQuery := do
  let gi := match gitignoreLines with
    | some ls => parseGitignoreLines ls
    | none => []
  let afterGi := if gi.isEmpty then defaults else defaults ++ gi
  let afterUser ← match ignorePats with
    | some ip => do
      let parsed ← parsePatterns ip
      pure (afterGi ++ parsed)
    | none => pure afterGi
  match includePats with
  | some inc => do
    let parsedInc ← parsePatterns inc
    pure ⟨sourcePath, basenameStr sourcePath, "/", maxFileSize,
          overrideIgnorePatterns afterUser parsedInc, some parsedInc⟩
  | none =>
    pure ⟨sourcePath, basenameStr sourcePath, "/", maxFileSize, afterUser, none⟩

/-! ## Concrete fixtures for evaluation -/

/-- A directory `/repo` holding exactly `a.txt` with content `hello`
(5 bytes, text). -/
def fsOneFile : FileSys where
  pexists p := p == "/repo" || p == "/repo/a.txt"
  isDir p := p == "/repo"
  isFile p := p == "/repo/a.txt"
  entries p := if p == "/repo" then some ["a.txt"] else none
  fsize p := if p == "/repo/a.txt" then 5 else 0
  isText p := p == "/repo/a.txt"
  readContent p := if p == "/repo/a.txt" then "hello" else ""
  realPath p := p
  allReal := ["/repo"]
  realMem := by
    intro p hp
    have h : p = "/repo" := by simpa using hp
    subst h
    decide

def qOneFile : ScanQuery := ⟨"/repo", [], [], 10, "repo"⟩

def limStd : Limits := ⟨1000000, 1000⟩

/-- A directory `/r` whose entry `loop` is a symbolic link back to `/r`
itself: `realPath "/r/loop" = "/r"`, and listing either name yields
`["loop"]` — a symlink cycle. -/
def fsCyc : FileSys where
  pexists p := p == "/r" || p == "/r/loop"
  isDir p := p == "/r" || p == "/r/loop"
  isFile _ := false
  entries p := if p == "/r" || p == "/r/loop" then some ["loop"] else none
  fsize _ := 0
  isText _ := false
  readContent _ := ""
  realPath p := if p == "/r/loop" then "/r" else p
  allReal := ["/r"]
  realMem := by
    intro p hp
    simp only [Bool.or_eq_true, beq_iff_eq] at hp
    rcases hp with h | h <;> subst h <;> decide

def qCyc : ScanQuery := ⟨"/r", [], [], 10, "r"⟩

/-- A directory `/r` holding exactly `big.txt`: 999 bytes of text `data`,
larger than the render limit `max_file_size = 10` of `qBig`. -/
def fsBig : FileSys where
  pexists p := p == "/r" || p == "/r/big.txt"
  isDir p := p == "/r"
  isFile p := p == "/r/big.txt"
  entries p := if p == "/r" then some ["big.txt"] else none
  fsize p := if p == "/r/big.txt" then 999 else 0
  isText p := p == "/r/big.txt"
  readContent p := if p == "/r/big.txt" then "data" else ""
  realPath p := p
  allReal := ["/r"]
  realMem := by
    intro p hp
    have h : p = "/r" := by simpa using hp
    subst h
    decide

def qBig : ScanQuery := ⟨"/r", [], [], 10, "r"⟩

/-- A directory `/r` holding exactly `e.txt`: a zero-byte text file whose
read content is the empty string. -/
def fsEmptyF : FileSys where
  pexists p := p == "/r" || p == "/r/e.txt"
  isDir p := p == "/r"
  isFile p := p == "/r/e.txt"
  entries p := if p == "/r" then some ["e.txt"] else none
  fsize _ := 0
  isText p := p == "/r/e.txt"
  readContent _ := ""
  realPath p := p
  allReal := ["/r"]
  realMem := by
    intro p hp
    have h : p = "/r" := by simpa using hp
    subst h
    decide

/-- A root `/tmp/a` whose subtree repeats the root path as a substring:
it holds `tmp/a/f.txt`, so the file path is `/tmp/a/tmp/a/f.txt`. -/
def fsNested : FileSys where
  pexists p :=
    p == "/tmp/a" || p == "/tmp/a/tmp" || p == "/tmp/a/tmp/a"
      || p == "/tmp/a/tmp/a/f.txt"
  isDir p := p == "/tmp/a" || p == "/tmp/a/tmp" || p == "/tmp/a/tmp/a"
  isFile p := p == "/tmp/a/tmp/a/f.txt"
  entries p :=
    if p == "/tmp/a" then some ["tmp"]
    else if p == "/tmp/a/tmp" then some ["a"]
    else if p == "/tmp/a/tmp/a" then some ["f.txt"]
    else none
  fsize p := if p == "/tmp/a/tmp/a/f.txt" then 1 else 0
  isText p := p == "/tmp/a/tmp/a/f.txt"
  readContent p := if p == "/tmp/a/tmp/a/f.txt" then "x" else ""
  realPath p := p
  allReal := ["/tmp/a", "/tmp/a/tmp", "/tmp/a/tmp/a"]
  realMem := by
    intro p hp
    simp only [Bool.or_eq_true, beq_iff_eq] at hp
    rcases hp with (h | h) | h <;> subst h <;> decide

def qNested : ScanQuery := ⟨"/tmp/a", [], [], 10, "a"⟩

/-! # Theorems -/

/-! ## List auxiliaries -/

theorem contains_eq_true_iff (l : List String) (a : String) :
    l.contains a = true ↔ a ∈ l := by
  simp [List.contains]

theorem filter_length_le_of_imp (l : List String) (p q : String → Bool)
    (h : ∀ x, p x = true → q x = true) :
    (l.filter p).length ≤ (l.filter q).length := by
  induction l with
  | nil => simp
  | cons a l ih =>
    simp only [List.filter_cons]
    by_cases hp : p a = true
    · rw [if_pos hp, if_pos (h a hp)]
      simpa using ih
    · rw [if_neg hp]
      by_cases hq : q a = true
      · rw [if_pos hq]
        simp only [List.length_cons]
        omega
      · rw [if_neg hq]
        exact ih

theorem filter_length_lt_of_imp (l : List String) (p q : String → Bool)
    (h : ∀ x, p x = true → q x = true) (x : String) (hx : x ∈ l)
    (hqx : q x = true) (hpx : p x = false) :
    (l.filter p).length < (l.filter q).length := by
  induction l with
  | nil => simp at hx
  | cons a l ih =>
    simp only [List.filter_cons]
    rcases List.mem_cons.mp hx with rfl | hmem
    · rw [hpx]
      simp only [Bool.false_eq_true, if_false, if_pos hqx, List.length_cons]
      exact Nat.lt_succ_of_le (filter_length_le_of_imp l p q h)
    · by_cases hp : p a = true
      · rw [if_pos hp, if_pos (h a hp)]
        simpa using ih hmem
      · rw [if_neg hp]
        by_cases hq : q a = true
        · rw [if_pos hq]
          exact Nat.lt_succ_of_lt (ih hmem)
        · rw [if_neg hq]
          exact ih hmem

theorem unseen_mono (fs : FileSys) (seen seen' : List String)
    (h : ∀ x ∈ seen, x ∈ seen') :
    unseenCount fs seen' ≤ unseenCount fs seen := by
  apply filter_length_le_of_imp
  intro x hx
  simp only [Bool.not_eq_true'] at hx ⊢
  cases hc : seen.contains x with
  | false => rfl
  | true =>
    have hmem : x ∈ seen' := h x ((contains_eq_true_iff seen x).mp hc)
    rw [(contains_eq_true_iff seen' x).mpr hmem] at hx
    exact hx.symm ▸ rfl

theorem unseen_insert_lt (fs : FileSys) (seen : List String) (rp : String)
    (hrp : rp ∈ fs.allReal) (hns : seen.contains rp = false) :
    unseenCount fs (rp :: seen) < unseenCount fs seen := by
  have himp : ∀ x, (fun r => !(rp :: seen).contains r) x = true →
      (fun r => !seen.contains r) x = true := by
    intro x hx
    simp only [Bool.not_eq_true'] at hx ⊢
    cases hc : seen.contains x with
    | false => rfl
    | true =>
      have : (rp :: seen).contains x = true := by
        rw [contains_eq_true_iff]
        exact List.mem_cons_of_mem _ ((contains_eq_true_iff seen x).mp hc)
      rw [this] at hx
      exact hx.symm ▸ rfl
  have hq : (fun r => !seen.contains r) rp = true := by
    show (!seen.contains rp) = true
    rw [hns]
    rfl
  have hp : (fun r => !(rp :: seen).contains r) rp = false := by
    show (!(rp :: seen).contains rp) = false
    rw [(contains_eq_true_iff _ _).mpr (List.mem_cons_self _ _)]
    rfl
  exact filter_length_lt_of_imp fs.allReal _ _ himp rp hrp hq hp

/-! ## The seen set only grows during a scan -/

theorem scanItemsGo_seen_mono (fs : FileSys) (q : ScanQuery) (lim : Limits)
    (recur : String → List String → Stats → Node × List String × Stats)
    (basePath dirPath : String)
    (hrec : ∀ p s st, ∀ x ∈ s, x ∈ (recur p s st).2.1) :
    ∀ items seen stats acc, ∀ x ∈ seen,
      x ∈ (scanItemsGo fs q lim recur basePath dirPath items seen stats acc).2.1 := by
  intro items
  induction items with
  | nil =>
    intro seen stats acc x hx
    simpa [scanItemsGo] using hx
  | cons item rest ih =>
    intro seen stats acc x hx
    simp only [scanItemsGo]
    repeat' split
    all_goals
      first
        | exact hx
        | exact ih _ _ _ _ hx
        | exact ih _ _ _ _ (hrec _ _ _ _ hx)

theorem scanFuel_seen_mono (fs : FileSys) (q : ScanQuery) (lim : Limits) :
    ∀ fuel path seen stats, ∀ x ∈ seen,
      x ∈ (scanFuel fs q lim fuel path seen stats).2.1 := by
  intro fuel
  induction fuel with
  | zero =>
    intro path seen stats x hx
    simpa [scanFuel] using hx
  | succ fuel ih =>
    intro path seen stats x hx
    simp only [scanFuel]
    repeat' split
    all_goals
      first
        | exact hx
        | exact List.mem_cons_of_mem _ hx
        | exact scanItemsGo_seen_mono fs q lim _ _ _
            (fun p s st => ih p s st) _ _ _ _ x (List.mem_cons_of_mem _ hx)

/-! ## Stability: any sufficient recursion budget gives the same scan -/

theorem scanItemsGo_congr (fs : FileSys) (q : ScanQuery) (lim : Limits)
    (r1 r2 : String → List String → Stats → Node × List String × Stats)
    (basePath dirPath : String)
    (hmono : ∀ p s st, ∀ x ∈ s, x ∈ (r1 p s st).2.1) :
    ∀ items seen stats acc,
      (∀ p s st, (∀ x ∈ seen, x ∈ s) → r1 p s st = r2 p s st) →
      scanItemsGo fs q lim r1 basePath dirPath items seen stats acc
        = scanItemsGo fs q lim r2 basePath dirPath items seen stats acc := by
  intro items
  induction items with
  | nil =>
    intro seen stats acc hagree
    simp [scanItemsGo]
  | cons item rest ih =>
    intro seen stats acc hagree
    have hitem : r1 (dirPath ++ "/" ++ item) seen stats
        = r2 (dirPath ++ "/" ++ item) seen stats :=
      hagree _ _ _ (fun x hx => hx)
    have hagree2 : ∀ p s st,
        (∀ x ∈ (r1 (dirPath ++ "/" ++ item) seen stats).2.1, x ∈ s) →
        r1 p s st = r2 p s st := by
      intro p s st hs
      exact hagree p s st fun x hx =>
        hs x (hmono (dirPath ++ "/" ++ item) seen stats x hx)
    simp only [scanItemsGo]
    rw [← hitem]
    repeat' split
    all_goals
      first
        | rfl
        | exact ih _ _ _ hagree
        | exact ih _ _ _ hagree2

theorem scanFuel_stable (fs : FileSys) (q : ScanQuery) (lim : Limits) :
    ∀ n m path seen stats, unseenCount fs seen < n → unseenCount fs seen < m →
      scanFuel fs q lim n path seen stats = scanFuel fs q lim m path seen stats := by
  intro n
  induction n using Nat.strong_induction_on with
  | _ n ihn =>
    intro m path seen stats hn hm
    rcases n with _ | n'
    · omega
    rcases m with _ | m'
    · omega
    simp only [scanFuel]
    repeat' split
    · rfl
    · rfl
    · rfl
    · rfl
    · rename_i h1 h2 h3 oentries items hentries
      -- the directory branch: both sides loop over the items with smaller budgets
      have hdir' : fs.isDir (rstripSeps path) = true := by
        cases hv : fs.isDir (rstripSeps path) with
        | false => exact absurd (by rw [hv]; rfl) h2
        | true => rfl
      have hrp : fs.realPath (rstripSeps path) ∈ fs.allReal := fs.realMem _ hdir'
      have hns : seen.contains (fs.realPath (rstripSeps path)) = false := by
        cases hv : seen.contains (fs.realPath (rstripSeps path)) with
        | false => rfl
        | true => exact absurd hv h3
      have hlt := unseen_insert_lt fs seen _ hrp hns
      have hagree : ∀ p s st,
          (∀ x ∈ fs.realPath (rstripSeps path) :: seen, x ∈ s) →
          scanFuel fs q lim n' p s st = scanFuel fs q lim m' p s st := by
        intro p s st hs
        have hle := unseen_mono fs _ s hs
        exact ihn n' (Nat.lt_succ_self n') m' p s st (by omega) (by omega)
      have hloop := scanItemsGo_congr fs q lim
        (fun p s st => scanFuel fs q lim n' p s st)
        (fun p s st => scanFuel fs q lim m' p s st)
        (adjustedBase q (rstripSeps path)) (rstripSeps path)
        (fun p s st => scanFuel_seen_mono fs q lim n' p s st)
        (sortStrings items) (fs.realPath (rstripSeps path) :: seen) stats
        ⟨[], 0, 0, 0⟩
        (fun p s st hsup => hagree p s st hsup)
      rw [hloop]

/-! ## Structural lemmas about scanned trees -/

theorem filesOfList_append (l1 l2 : List Node) :
    filesOfList (l1 ++ l2) = filesOfList l1 ++ filesOfList l2 := by
  induction l1 with
  | nil => simp [filesOfList]
  | cons c rest ih => simp [filesOfList, ih]

theorem sumSizes_append (l1 l2 : List Node) :
    sumSizes (l1 ++ l2) = sumSizes l1 + sumSizes l2 := by
  simp [sumSizes]

theorem scanFilteredList_append (q : ScanQuery) (b : String) (l1 l2 : List Node) :
    scanFilteredList q b (l1 ++ l2)
      = (scanFilteredList q b l1 && scanFilteredList q b l2) := by
  induction l1 with
  | nil => simp [scanFilteredList]
  | cons c rest ih => simp [scanFilteredList, ih, Bool.and_assoc]


/-! ## The scan invariant: filters hold, counters track the collected files -/

theorem scanItemsGo_inv (fs : FileSys) (q : ScanQuery) (lim : Limits)
    (recur : String → List String → Stats → Node × List String × Stats)
    (basePath dirPath : String)
    (hrec : ∀ p s st,
      scanFiltered q (recur p s st).1 = true
      ∧ nodeFileCount (recur p s st).1 = (filesOfNode (recur p s st).1).length
      ∧ nodeSize (recur p s st).1 = sumSizes (filesOfNode (recur p s st).1)
      ∧ (recur p s st).2.2.totalFiles
          = st.totalFiles + (filesOfNode (recur p s st).1).length
      ∧ (recur p s st).2.2.totalSize
          = st.totalSize + sumSizes (filesOfNode (recur p s st).1)
      ∧ (st.totalSize ≤ lim.maxTotalSize →
          (recur p s st).2.2.totalSize ≤ lim.maxTotalSize)
      ∧ (st.totalFiles ≤ lim.maxFiles →
          (recur p s st).2.2.totalFiles ≤ lim.maxFiles)
      ∧ isDirNode (recur p s st).1 = true) :
    ∀ items seen stats acc,
      let R := scanItemsGo fs q lim recur basePath dirPath items seen stats acc
      (scanFilteredList q basePath acc.children = true →
        scanFilteredList q basePath R.1.children = true)
      ∧ R.1.fileCount + (filesOfList acc.children).length
          = acc.fileCount + (filesOfList R.1.children).length
      ∧ R.1.size + sumSizes (filesOfList acc.children)
          = acc.size + sumSizes (filesOfList R.1.children)
      ∧ R.2.2.totalFiles + (filesOfList acc.children).length
          = stats.totalFiles + (filesOfList R.1.children).length
      ∧ R.2.2.totalSize + sumSizes (filesOfList acc.children)
          = stats.totalSize + sumSizes (filesOfList R.1.children)
      ∧ (stats.totalSize ≤ lim.maxTotalSize → R.2.2.totalSize ≤ lim.maxTotalSize)
      ∧ (stats.totalFiles ≤ lim.maxFiles → R.2.2.totalFiles ≤ lim.maxFiles) := by
  intro items
  induction items with
  | nil =>
    intro seen stats acc
    simp [scanItemsGo]
  | cons item rest ih =>
    intro seen stats acc
    simp only []
    simp only [scanItemsGo]
    split
    · -- excluded: skipped with everything unchanged
      exact ih seen stats acc
    · split
      · -- a file
        split
        · -- failing the include filter: skipped
          exact ih seen stats acc
        · split
          · -- would break the total-size limit: skipped
            exact ih seen stats acc
          · split
            · -- file-count ceiling reached: break, partial result kept
              refine ⟨fun h => h, rfl, rfl, rfl, rfl, fun h => h, fun h => h⟩
            · -- admitted file
              rename_i hexc hfile hinc hsize hcount
              have hex' : shouldExclude (dirPath ++ "/" ++ item) basePath
                  q.ignorePatterns = false := by
                cases hv : shouldExclude (dirPath ++ "/" ++ item) basePath
                    q.ignorePatterns with
                | false => rfl
                | true => exact absurd hv hexc
              have hincOk : (!includeTruthy q
                  || shouldInclude (dirPath ++ "/" ++ item) basePath
                      q.includePatterns) = true := by
                cases hA : includeTruthy q <;>
                  cases hB : shouldInclude (dirPath ++ "/" ++ item) basePath
                    q.includePatterns <;> simp_all
              have ih' := ih seen
                ⟨stats.totalFiles + 1, stats.totalSize + fs.fsize (dirPath ++ "/" ++ item)⟩
                ⟨acc.children ++ [Node.file item (dirPath ++ "/" ++ item)
                    (fs.fsize (dirPath ++ "/" ++ item))
                    (if fs.isText (dirPath ++ "/" ++ item) then
                      fs.readContent (dirPath ++ "/" ++ item) else "[Non-text file]")],
                  acc.size + fs.fsize (dirPath ++ "/" ++ item),
                  acc.fileCount + 1, acc.dirCount⟩
              simp only [] at ih'
              obtain ⟨f1, f2, f3, f4, f5, f6, f7⟩ := ih'
              have hfl : filesOfList (acc.children ++ [Node.file item
                  (dirPath ++ "/" ++ item) (fs.fsize (dirPath ++ "/" ++ item))
                  (if fs.isText (dirPath ++ "/" ++ item) then
                    fs.readContent (dirPath ++ "/" ++ item) else "[Non-text file]")])
                  = filesOfList acc.children ++ [Node.file item
                    (dirPath ++ "/" ++ item) (fs.fsize (dirPath ++ "/" ++ item))
                    (if fs.isText (dirPath ++ "/" ++ item) then
                      fs.readContent (dirPath ++ "/" ++ item) else "[Non-text file]")] := by
                rw [filesOfList_append]
                simp [filesOfList, filesOfNode]
              rw [hfl] at f2 f3 f4 f5
              simp only [List.length_append, List.length_cons, List.length_nil,
                sumSizes_append] at f2 f3 f4 f5
              have hsum1 : sumSizes [Node.file item (dirPath ++ "/" ++ item)
                  (fs.fsize (dirPath ++ "/" ++ item))
                  (if fs.isText (dirPath ++ "/" ++ item) then
                    fs.readContent (dirPath ++ "/" ++ item) else "[Non-text file]")]
                  = fs.fsize (dirPath ++ "/" ++ item) := by
                simp [sumSizes, nodeSize]
              rw [hsum1] at f3 f5
              refine ⟨?_, by omega, by omega, by omega, by omega, ?_, ?_⟩
              · intro hacc
                apply f1
                rw [scanFilteredList_append]
                simp only [Bool.and_eq_true]
                refine ⟨hacc, ?_⟩
                simp [scanFilteredList, scanFiltered, hex', hincOk]
              · intro hts
                apply f6
                show stats.totalSize + fs.fsize (dirPath ++ "/" ++ item)
                  ≤ lim.maxTotalSize
                omega
              · intro htf
                apply f7
                show stats.totalFiles + 1 ≤ lim.maxFiles
                omega
      · split
        · -- a directory
          split
          · -- subdirectory kept
            rename_i hexc hnotfile hdir hkeep
            obtain ⟨r1, r2, r3, r4, r5, r6, r7, r8⟩ :=
              hrec (dirPath ++ "/" ++ item) seen stats
            have ih' := ih (recur (dirPath ++ "/" ++ item) seen stats).2.1
              (recur (dirPath ++ "/" ++ item) seen stats).2.2
              ⟨acc.children ++ [(recur (dirPath ++ "/" ++ item) seen stats).1],
                acc.size + nodeSize (recur (dirPath ++ "/" ++ item) seen stats).1,
                acc.fileCount + nodeFileCount (recur (dirPath ++ "/" ++ item) seen stats).1,
                acc.dirCount + 1 + nodeDirCount (recur (dirPath ++ "/" ++ item) seen stats).1⟩
            simp only [] at ih'
            obtain ⟨f1, f2, f3, f4, f5, f6, f7⟩ := ih'
            have hfl : filesOfList (acc.children
                ++ [(recur (dirPath ++ "/" ++ item) seen stats).1])
                = filesOfList acc.children
                  ++ filesOfNode (recur (dirPath ++ "/" ++ item) seen stats).1 := by
              rw [filesOfList_append]
              cases hnode : (recur (dirPath ++ "/" ++ item) seen stats).1 <;>
                simp [filesOfList, filesOfNode]
            rw [hfl] at f2 f3 f4 f5
            simp only [List.length_append, sumSizes_append] at f2 f3 f4 f5
            refine ⟨?_, by omega, by omega, by omega, by omega, ?_, ?_⟩
            · intro hacc
              apply f1
              rw [scanFilteredList_append]
              simp only [Bool.and_eq_true]
              refine ⟨hacc, ?_⟩
              cases hnode : (recur (dirPath ++ "/" ++ item) seen stats).1 with
              | file a b c d =>
                rw [hnode] at r8
                exact absurd r8 (by simp [isDirNode])
              | dir a b c d e f g =>
                have hk := hnode ▸ r1
                simp [scanFilteredList, hk]
            · intro hts
              exact f6 (r6 hts)
            · intro htf
              exact f7 (r7 htf)
          · -- subdirectory dropped: include patterns active, no qualifying file
            rename_i hexc hnotfile hdir hdrop
            obtain ⟨r1, r2, r3, r4, r5, r6, r7, r8⟩ :=
              hrec (dirPath ++ "/" ++ item) seen stats
            have hfc : nodeFileCount (recur (dirPath ++ "/" ++ item) seen stats).1 = 0 := by
              cases hv : nodeFileCount (recur (dirPath ++ "/" ++ item) seen stats).1 with
              | zero => rfl
              | succ k =>
                exfalso
                apply hdrop
                rw [hv]
                simp
            have hempty : filesOfNode (recur (dirPath ++ "/" ++ item) seen stats).1 = [] := by
              have h0 := r2
              rw [hfc] at h0
              exact List.length_eq_zero.mp h0.symm
            have ih' := ih (recur (dirPath ++ "/" ++ item) seen stats).2.1
              (recur (dirPath ++ "/" ++ item) seen stats).2.2 acc
            simp only [] at ih'
            obtain ⟨f1, f2, f3, f4, f5, f6, f7⟩ := ih'
            rw [hempty] at r4 r5
            simp only [List.length_nil, Nat.add_zero] at r4 r5
            have hsum0 : sumSizes ([] : List Node) = 0 := by simp [sumSizes]
            rw [hsum0] at r5
            refine ⟨f1, f2, f3, by omega, by omega, ?_, ?_⟩
            · intro hts
              exact f6 (r6 hts)
            · intro htf
              exact f7 (r7 htf)
        · -- neither file nor directory: skipped
          exact ih seen stats acc

theorem scanFuel_inv (fs : FileSys) (q : ScanQuery) (lim : Limits) :
    ∀ fuel path seen stats,
      let r := scanFuel fs q lim fuel path seen stats
      scanFiltered q r.1 = true
      ∧ nodeFileCount r.1 = (filesOfNode r.1).length
      ∧ nodeSize r.1 = sumSizes (filesOfNode r.1)
      ∧ r.2.2.totalFiles = stats.totalFiles + (filesOfNode r.1).length
      ∧ r.2.2.totalSize = stats.totalSize + sumSizes (filesOfNode r.1)
      ∧ (stats.totalSize ≤ lim.maxTotalSize → r.2.2.totalSize ≤ lim.maxTotalSize)
      ∧ (stats.totalFiles ≤ lim.maxFiles → r.2.2.totalFiles ≤ lim.maxFiles)
      ∧ isDirNode r.1 = true := by
  intro fuel
  induction fuel with
  | zero =>
    intro path seen stats
    simp [scanFuel, emptyDirNode, scanFiltered, scanFilteredList, filesOfNode,
      filesOfList, nodeFileCount, nodeSize, sumSizes, isDirNode]
  | succ fuel ih =>
    intro path seen stats
    simp only []
    simp only [scanFuel]
    split
    · simp [emptyDirNode, scanFiltered, scanFilteredList, filesOfNode,
        filesOfList, nodeFileCount, nodeSize, sumSizes, isDirNode]
    · split
      · simp [emptyDirNode, scanFiltered, scanFilteredList, filesOfNode,
          filesOfList, nodeFileCount, nodeSize, sumSizes, isDirNode]
      · split
        · simp [emptyDirNode, scanFiltered, scanFilteredList, filesOfNode,
            filesOfList, nodeFileCount, nodeSize, sumSizes, isDirNode]
        · split
          · -- PermissionError in os.listdir: empty result
            simp [scanFiltered, scanFilteredList, filesOfNode,
              filesOfList, nodeFileCount, nodeSize, sumSizes, isDirNode]
          · rename_i h1 h2 h3 items hentries
            have hloop := scanItemsGo_inv fs q lim
              (fun p s st => scanFuel fs q lim fuel p s st)
              (adjustedBase q (rstripSeps path)) (rstripSeps path)
              (fun p s st => ih p s st)
              (sortStrings items)
              (fs.realPath (rstripSeps path) :: seen) stats ⟨[], 0, 0, 0⟩
            simp only [] at hloop
            obtain ⟨f1, f2, f3, f4, f5, f6, f7⟩ := hloop
            have hnil : scanFilteredList q (adjustedBase q (rstripSeps path))
                (DirAcc.children ⟨[], 0, 0, 0⟩) = true := by
              simp [scanFilteredList]
            have hflnil : filesOfList (DirAcc.children ⟨[], 0, 0, 0⟩) = [] := by
              simp [filesOfList]
            rw [hflnil] at f2 f3 f4 f5
            simp only [List.length_nil, Nat.add_zero] at f2 f3 f4 f5
            have hs0 : sumSizes ([] : List Node) = 0 := by simp [sumSizes]
            rw [hs0] at f3 f5
            refine ⟨?_, ?_, ?_, ?_, ?_, f6, f7, rfl⟩
            · exact f1 hnil
            · show _ = (filesOfList _).length
              simp only [nodeFileCount, filesOfNode]
              omega
            · show _ = sumSizes (filesOfList _)
              simp only [nodeSize, filesOfNode]
              omega
            · show _ = stats.totalFiles + (filesOfList _).length
              simp only [filesOfNode]
              omega
            · show _ = stats.totalSize + sumSizes (filesOfList _)
              simp only [filesOfNode]
              omega

/-! ## Renderer characterization -/

theorem readmeFirstPart_eq (files : List FileInfo) (f : FileInfo)
    (hf : files.find? (fun g => contentTruthy g.content && isReadmePath g) = some f) :
    readmeFirstPart files = fileBlock f := by
  induction files with
  | nil => simp at hf
  | cons g rest ih =>
    simp only [List.find?_cons] at hf
    cases hg : (contentTruthy g.content && isReadmePath g) with
    | true =>
      rw [hg] at hf
      obtain rfl : g = f := by simpa using hf
      rw [readmeFirstPart]
      rw [Bool.and_eq_true] at hg
      simp [hg.1, hg.2]
    | false =>
      rw [hg] at hf
      rw [readmeFirstPart]
      cases ht : contentTruthy g.content with
      | false => simp only [ht, Bool.not_false, if_true]; exact ih hf
      | true =>
        have hr : isReadmePath g = false := by
          cases hv : isReadmePath g with
          | false => rfl
          | true => rw [ht, hv] at hg; exact absurd hg (by simp)
        simp only [ht, Bool.not_true, Bool.false_eq_true, if_false, hr]
        exact ih hf

theorem otherFilesPart_eq (files : List FileInfo) :
    otherFilesPart files
      = ((files.filter (fun g => contentTruthy g.content && !isReadmePath g)).map
          fileBlock).foldr (fun s acc => s ++ acc) "" := by
  induction files with
  | nil => simp [otherFilesPart]
  | cons g rest ih =>
    rw [otherFilesPart, List.filter_cons]
    cases ht : contentTruthy g.content with
    | false => simp [ht, ih]
    | true =>
      cases hr : isReadmePath g with
      | false => simp [ht, hr, ih]
      | true => simp [ht, hr, ih]

/-- C5: when some file with truthy content has a path whose lowering is
`/readme.md`, the first such file in list order opens the rendered content,
and every other file with truthy content follows in its original order
(ingest_from_query.py:263-290). -/
theorem c5_readme_rendered_first (files : List FileInfo) (f : FileInfo)
    (hf : files.find? (fun g => contentTruthy g.content && isReadmePath g) = some f) :
    createFileContentString files
      = fileBlock f
        ++ ((files.filter (fun g => contentTruthy g.content && !isReadmePath g)).map
            fileBlock).foldr (fun s acc => s ++ acc) "" := by
  rw [createFileContentString, readmeFirstPart_eq files f hf, otherFilesPart_eq]

/-- Witness for C5 at a concrete list where the README is not first. -/
theorem c5_readme_rendered_first_witness :
    createFileContentString
        [⟨"/b.txt", some "x", 1⟩, ⟨"/README.md", some "doc", 3⟩]
      = fileBlock ⟨"/README.md", some "doc", 3⟩
        ++ (([(⟨"/b.txt", some "x", 1⟩ : FileInfo),
            ⟨"/README.md", some "doc", 3⟩].filter
            (fun g => contentTruthy g.content && !isReadmePath g)).map
            fileBlock).foldr (fun s acc => s ++ acc) "" :=
  c5_readme_rendered_first _ _ (by decide)

/-! ## URL reference parsing -/

theorem isValidGitCommitHash_iff (tok : String) :
    isValidGitCommitHash tok = true ↔
      tok.length = 40 ∧ ∀ c ∈ tok.data,
        c.isDigit = true ∨ ('a' ≤ c ∧ c ≤ 'f') ∨ ('A' ≤ c ∧ c ≤ 'F') := by
  rw [isValidGitCommitHash]
  simp only [Bool.and_eq_true, beq_iff_eq, List.all_eq_true, Bool.or_eq_true,
    decide_eq_true_eq]
  constructor
  · rintro ⟨h1, h2⟩
    refine ⟨h1, ?_⟩
    intro c hc
    have := h2 c hc
    tauto
  · rintro ⟨h1, h2⟩
    refine ⟨h1, ?_⟩
    intro c hc
    have := h2 c hc
    tauto

/-- C6: in a remote locator whose path splits as
`owner / repo / tree-or-blob / token / rest`, the token is parsed as a
commit hash exactly when it is 40 hexadecimal characters, as a branch name
otherwise, and the remaining components form the subpath
(parse_query.py:52-74). -/
theorem c6_ref_token_parsing (urlPath u r t tok : String) (restp : List String)
    (ht : t = "tree" ∨ t = "blob")
    (hsplit : splitOnChar '/' (stripSlashes urlPath)
      = u :: r :: t :: tok :: restp) :
    ∃ pq : UrlQuery, parseUrlPath urlPath = some pq
      ∧ (isValidGitCommitHash tok = true →
          pq.commit = some tok ∧ pq.branch = none)
      ∧ (isValidGitCommitHash tok = false →
          pq.branch = some tok ∧ pq.commit = none)
      ∧ (isValidGitCommitHash tok = true ↔
          tok.length = 40 ∧ ∀ c ∈ tok.data,
            c.isDigit = true ∨ ('a' ≤ c ∧ c ≤ 'f') ∨ ('A' ≤ c ∧ c ≤ 'F'))
      ∧ pq.subpath = "/" ++ joinWith "/" restp
      ∧ pq.rtype = some t := by
  rw [parseUrlPath, hsplit]
  have hnotIssue : (t == "issues" || t == "pull") = false := by
    rcases ht with rfl | rfl <;> rfl
  simp only [hnotIssue, Bool.false_eq_true, if_false]
  cases hv : isValidGitCommitHash tok with
  | true =>
    rw [if_pos rfl]
    exact ⟨_, rfl, fun _ => ⟨rfl, rfl⟩, fun hc => absurd hc (by simp),
      iff_of_true rfl ((isValidGitCommitHash_iff tok).mp hv), rfl, rfl⟩
  | false =>
    rw [if_neg (by simp)]
    exact ⟨_, rfl, fun hc => absurd hc (by simp), fun _ => ⟨rfl, rfl⟩,
      iff_of_false (by simp)
        (fun hr => absurd ((isValidGitCommitHash_iff tok).mpr hr)
          (by simp [hv])), rfl, rfl⟩

/-- Witness for C6: a URL path with a 40-hex token after `/tree/` and a
two-component subpath. -/
theorem c6_ref_token_parsing_witness :
    ∃ pq : UrlQuery,
      parseUrlPath "/usr/proj/tree/0123456789abcdef0123456789abcdef01234567/src/x"
        = some pq
      ∧ (isValidGitCommitHash "0123456789abcdef0123456789abcdef01234567" = true →
          pq.commit = some "0123456789abcdef0123456789abcdef01234567"
          ∧ pq.branch = none)
      ∧ (isValidGitCommitHash "0123456789abcdef0123456789abcdef01234567" = false →
          pq.branch = some "0123456789abcdef0123456789abcdef01234567"
          ∧ pq.commit = none)
      ∧ (isValidGitCommitHash "0123456789abcdef0123456789abcdef01234567" = true ↔
          ("0123456789abcdef0123456789abcdef01234567" : String).length = 40
          ∧ ∀ c ∈ ("0123456789abcdef0123456789abcdef01234567" : String).data,
            c.isDigit = true ∨ ('a' ≤ c ∧ c ≤ 'f') ∨ ('A' ≤ c ∧ c ≤ 'F'))
      ∧ pq.subpath = "/" ++ joinWith "/" ["src", "x"]
      ∧ pq.rtype = some "tree" :=
  c6_ref_token_parsing
    "/usr/proj/tree/0123456789abcdef0123456789abcdef01234567/src/x"
    "usr" "proj" "tree" "0123456789abcdef0123456789abcdef01234567" ["src", "x"]
    (Or.inl rfl) (by decide)

/-! ## Scan claims -/

/-- C1: in every scanned tree, each file passed the exclusion filter at its
decision point, and — when include patterns are active — also the include
filter; directories are never include-filtered (`scanFiltered`).  Moreover
`file_count` equals the number of file nodes in the tree, so an excluded
file contributes to neither the content (which `_extract_files_content`
builds from exactly these file nodes) nor `file_count`
(ingest_from_query.py:161-226). -/
theorem c1_excluded_files_absent (fs : FileSys) (q : ScanQuery) (lim : Limits)
    (path : String) (seen : List String) (stats : Stats) :
    scanFiltered q (scanDirectory fs q lim path seen stats).1 = true
    ∧ nodeFileCount (scanDirectory fs q lim path seen stats).1
        = (filesOfNode (scanDirectory fs q lim path seen stats).1).length := by
  have h := scanFuel_inv fs q lim (unseenCount fs seen + 1) path seen stats
  simp only [] at h
  rw [scanDirectory]
  exact ⟨h.1, h.2.1⟩

/-- C2: starting within the configured limits, the scan never exceeds the
total-size or file-count ceiling, every admitted file stays in the result
(the counters equal the initial counters plus exactly the files present in
the returned tree — no retroactive eviction), and once the count ceiling is
reached no further file is admitted anywhere in the walk
(ingest_from_query.py:179-193). -/
theorem c2_limits_respected (fs : FileSys) (q : ScanQuery) (lim : Limits)
    (path : String) (seen : List String) (stats : Stats)
    (hts : stats.totalSize ≤ lim.maxTotalSize)
    (htf : stats.totalFiles ≤ lim.maxFiles) :
    (scanDirectory fs q lim path seen stats).2.2.totalSize ≤ lim.maxTotalSize
    ∧ (scanDirectory fs q lim path seen stats).2.2.totalFiles ≤ lim.maxFiles
    ∧ (scanDirectory fs q lim path seen stats).2.2.totalFiles
        = stats.totalFiles
          + (filesOfNode (scanDirectory fs q lim path seen stats).1).length
    ∧ (scanDirectory fs q lim path seen stats).2.2.totalSize
        = stats.totalSize
          + sumSizes (filesOfNode (scanDirectory fs q lim path seen stats).1)
    ∧ (stats.totalFiles = lim.maxFiles →
        filesOfNode (scanDirectory fs q lim path seen stats).1 = []) := by
  have h := scanFuel_inv fs q lim (unseenCount fs seen + 1) path seen stats
  simp only [] at h
  rw [scanDirectory]
  obtain ⟨-, -, -, h4, h5, h6, h7, -⟩ := h
  refine ⟨h6 hts, h7 htf, h4, h5, ?_⟩
  intro heq
  have hb := h7 htf
  rw [h4, heq] at hb
  have hzero : (filesOfNode
      (scanFuel fs q lim (unseenCount fs seen + 1) path seen stats).1).length = 0 := by
    omega
  exact List.length_eq_zero.mp hzero

/-- Witness for C2 on the one-file fixture with empty starting counters. -/
theorem c2_limits_respected_witness :
    (scanDirectory fsOneFile qOneFile limStd "/repo" [] ⟨0, 0⟩).2.2.totalSize
        ≤ limStd.maxTotalSize
    ∧ (scanDirectory fsOneFile qOneFile limStd "/repo" [] ⟨0, 0⟩).2.2.totalFiles
        ≤ limStd.maxFiles
    ∧ (scanDirectory fsOneFile qOneFile limStd "/repo" [] ⟨0, 0⟩).2.2.totalFiles
        = (0 : Nat)
          + (filesOfNode
              (scanDirectory fsOneFile qOneFile limStd "/repo" [] ⟨0, 0⟩).1).length
    ∧ (scanDirectory fsOneFile qOneFile limStd "/repo" [] ⟨0, 0⟩).2.2.totalSize
        = (0 : Nat)
          + sumSizes (filesOfNode
              (scanDirectory fsOneFile qOneFile limStd "/repo" [] ⟨0, 0⟩).1)
    ∧ ((0 : Nat) = limStd.maxFiles →
        filesOfNode (scanDirectory fsOneFile qOneFile limStd "/repo" [] ⟨0, 0⟩).1
          = []) :=
  c2_limits_respected fsOneFile qOneFile limStd "/repo" [] ⟨0, 0⟩
    (by decide) (by decide)

/-- C4: the walk terminates — any recursion budget beyond the number of
unvisited real paths yields the same, stable result — and a directory whose
canonical real path is already in `seen_paths` comes back as the empty
placeholder directory, with the seen set and counters untouched
(ingest_from_query.py:130-144). -/
theorem c4_symlink_cycle_placeholder (fs : FileSys) (q : ScanQuery)
    (lim : Limits) (path : String) (seen : List String) (stats : Stats) :
    (∀ fuel, unseenCount fs seen < fuel →
      scanFuel fs q lim fuel path seen stats
        = scanDirectory fs q lim path seen stats)
    ∧ (fs.realPath (rstripSeps path) ∈ seen →
        scanDirectory fs q lim path seen stats
          = (emptyDirNode (rstripSeps path), seen, stats)) := by
  constructor
  · intro fuel hf
    rw [scanDirectory]
    exact scanFuel_stable fs q lim fuel _ path seen stats hf (Nat.lt_succ_self _)
  · intro hmem
    rw [scanDirectory, scanFuel]
    split
    · rfl
    · split
      · rfl
      · have hc : seen.contains (fs.realPath (rstripSeps path)) = true :=
          (contains_eq_true_iff _ _).mpr hmem
        simp only [hc]
        rfl

/-- Witness for C4 on the cyclic-symlink fixture: scanning the link target a
second time yields the placeholder, and budget 5 is already stable. -/
theorem c4_symlink_cycle_placeholder_witness :
    scanFuel fsCyc qCyc limStd 5 "/r/loop" ["/r"] ⟨0, 0⟩
      = scanDirectory fsCyc qCyc limStd "/r/loop" ["/r"] ⟨0, 0⟩
    ∧ scanDirectory fsCyc qCyc limStd "/r/loop" ["/r"] ⟨0, 0⟩
      = (emptyDirNode "/r/loop", ["/r"], ⟨0, 0⟩) := by
  constructor
  · exact (c4_symlink_cycle_placeholder fsCyc qCyc limStd "/r/loop" ["/r"]
      ⟨0, 0⟩).1 5 (by decide)
  · exact (c4_symlink_cycle_placeholder fsCyc qCyc limStd "/r/loop" ["/r"]
      ⟨0, 0⟩).2 (by decide)

/-! ## Round trip, oversized files, empty files, path relativization -/

/-- Counterexample to C3 as stated: ingesting `/repo` holding only `a.txt`
with content `hello` does not produce the tree
`"Directory structure:\n└── a.txt\n"` — the root directory gets its own
line first (ingest_from_query.py:316-322 prints the root node, whose name
is the basename of the scanned path). -/
theorem c3_tree_counterexample :
    (ingestDirectory fsOneFile qOneFile limStd "/repo").1
      ≠ "Directory structure:\n└── a.txt\n" := by decide

/-- C3 amended: the same ingestion yields the tree with the root line
`└── repo/` followed by the indented `└── a.txt`, and the content is
exactly the `File: /a.txt` block whose body is `hello`. -/
theorem c3_amended_round_trip :
    ingestDirectory fsOneFile qOneFile limStd "/repo"
      = ("Directory structure:\n└── repo/\n    └── a.txt\n",
         separatorLine ++ "File: /a.txt\n" ++ separatorLine ++ "hello\n\n") := by
  decide

/-- Counterexample to C7 as stated: for a file whose size (999) exceeds the
render limit `max_file_size` (10), the extracted record carries the `None`
sentinel, and the Digest Renderer emits nothing at all for it — no sentinel
appears in the rendered content, which is empty. -/
theorem c7_no_sentinel_rendered_counterexample :
    extractFilesContent "/r" 10 (Node.file "big.txt" "/r/big.txt" 999 "data")
      = [⟨"/big.txt", none, 999⟩]
    ∧ createFileContentString [⟨"/big.txt", none, 999⟩] = "" := by decide

/-- C7 amended: an admitted file larger than `max_file_size` is recorded
with the `None` content sentinel in the extracted file list
(ingest_from_query.py:246-247), the renderer omits its block entirely
(line 270), and the file still counts toward the file and size statistics:
on the `fsBig` fixture the scan counts it in `file_count` and in the
`stats` totals while the rendered content stays empty. -/
theorem c7_oversized_sentinel_and_stats (localPath : String) (maxFileSize : Nat)
    (name path : String) (size : Nat) (content : String)
    (hsz : size > maxFileSize) (hc : content ≠ "[Non-text file]") :
    extractFilesContent localPath maxFileSize (Node.file name path size content)
      = [⟨replaceStr path localPath "", none, size⟩]
    ∧ (∀ files, createFileContentString
        (⟨replaceStr path localPath "", none, size⟩ :: files)
        = createFileContentString files)
    ∧ nodeFileCount (scanDirectory fsBig qBig limStd "/r" [] ⟨0, 0⟩).1 = 1
    ∧ (scanDirectory fsBig qBig limStd "/r" [] ⟨0, 0⟩).2.2.totalFiles = 1
    ∧ (scanDirectory fsBig qBig limStd "/r" [] ⟨0, 0⟩).2.2.totalSize = 999
    ∧ (ingestDirectory fsBig qBig limStd "/r").2 = "" := by
  refine ⟨?_, ?_, by decide, by decide, by decide, by decide⟩
  · rw [extractFilesContent, if_pos hc, if_pos hsz]
  · intro files
    rw [createFileContentString, createFileContentString]
    rw [readmeFirstPart, otherFilesPart]
    simp [contentTruthy]

/-- C10: a text file whose read content is the empty string is extracted
with content `some ""`, which is falsy in the renderer, so no `File:` block
is emitted for it — while on the `fsEmptyF` fixture the zero-byte file is
still counted in `file_count` and the totals, with empty rendered content
(ingest_from_query.py:263-290 skip falsy content; 179-208 admit the file). -/
theorem c10_empty_text_file_dropped (localPath : String) (maxFileSize : Nat)
    (name path : String) (size : Nat) (hsz : ¬ size > maxFileSize) :
    extractFilesContent localPath maxFileSize (Node.file name path size "")
      = [⟨replaceStr path localPath "", some "", size⟩]
    ∧ (∀ files, createFileContentString
        (⟨replaceStr path localPath "", some "", size⟩ :: files)
        = createFileContentString files)
    ∧ nodeFileCount (scanDirectory fsEmptyF qBig limStd "/r" [] ⟨0, 0⟩).1 = 1
    ∧ (scanDirectory fsEmptyF qBig limStd "/r" [] ⟨0, 0⟩).2.2.totalFiles = 1
    ∧ (ingestDirectory fsEmptyF qBig limStd "/r").2 = "" := by
  refine ⟨?_, ?_, by decide, by decide, by decide⟩
  · rw [extractFilesContent, if_pos (by decide : ("" : String) ≠ "[Non-text file]"),
      if_neg hsz]
  · intro files
    rw [createFileContentString, createFileContentString]
    rw [readmeFirstPart, otherFilesPart]
    simp [contentTruthy]

/-- Witness for C7 at a concrete oversized file. -/
theorem c7_oversized_sentinel_and_stats_witness :
    extractFilesContent "/r" 10 (Node.file "big.txt" "/r/big.txt" 999 "data")
      = [⟨replaceStr "/r/big.txt" "/r" "", none, 999⟩]
    ∧ (∀ files, createFileContentString
        (⟨replaceStr "/r/big.txt" "/r" "", none, 999⟩ :: files)
        = createFileContentString files)
    ∧ nodeFileCount (scanDirectory fsBig qBig limStd "/r" [] ⟨0, 0⟩).1 = 1
    ∧ (scanDirectory fsBig qBig limStd "/r" [] ⟨0, 0⟩).2.2.totalFiles = 1
    ∧ (scanDirectory fsBig qBig limStd "/r" [] ⟨0, 0⟩).2.2.totalSize = 999
    ∧ (ingestDirectory fsBig qBig limStd "/r").2 = "" :=
  c7_oversized_sentinel_and_stats "/r" 10 "big.txt" "/r/big.txt" 999 "data"
    (by decide) (by decide)

/-- Witness for C10 at a concrete empty text file. -/
theorem c10_empty_text_file_dropped_witness :
    extractFilesContent "/r" 10 (Node.file "e.txt" "/r/e.txt" 0 "")
      = [⟨replaceStr "/r/e.txt" "/r" "", some "", 0⟩]
    ∧ (∀ files, createFileContentString
        (⟨replaceStr "/r/e.txt" "/r" "", some "", 0⟩ :: files)
        = createFileContentString files)
    ∧ nodeFileCount (scanDirectory fsEmptyF qBig limStd "/r" [] ⟨0, 0⟩).1 = 1
    ∧ (scanDirectory fsEmptyF qBig limStd "/r" [] ⟨0, 0⟩).2.2.totalFiles = 1
    ∧ (ingestDirectory fsEmptyF qBig limStd "/r").2 = "" :=
  c10_empty_text_file_dropped "/r" 10 "e.txt" "/r/e.txt" 0 (by decide)

/-- C8: `_extract_files_content` computes the stored path with
`node["path"].replace(query["local_path"], "")`, which removes every
occurrence of the root path string.  When the root `/tmp/a` reoccurs inside
the tree (`/tmp/a/tmp/a/f.txt`), the stored and printed path is `/f.txt`,
not the true root-relative path `/tmp/a/f.txt`
(ingest_from_query.py:249-255). -/
theorem c8_replace_breaks_relative_paths :
    extractFilesContent "/tmp/a" 10
        (scanDirectory fsNested qNested limStd "/tmp/a" [] ⟨0, 0⟩).1
      = [⟨"/f.txt", some "x", 1⟩]
    ∧ (ingestDirectory fsNested qNested limStd "/tmp/a").2
        = separatorLine ++ "File: /f.txt\n" ++ separatorLine ++ "x\n\n"
    ∧ ("/f.txt" : String) ≠ "/tmp/a/f.txt" := by decide

/-! ## Pattern deduplication -/

theorem dedupKeepFirstAux_sublist (seen l : List String) :
    (dedupKeepFirstAux seen l).Sublist l := by
  induction l generalizing seen with
  | nil => simp [dedupKeepFirstAux]
  | cons x xs ih =>
    rw [dedupKeepFirstAux]
    split
    · exact (ih seen).cons x
    · exact (ih (seen ++ [x])).cons₂ x

theorem mem_dedupKeepFirstAux (seen l : List String) (y : String) :
    y ∈ dedupKeepFirstAux seen l ↔ y ∈ l ∧ y ∉ seen := by
  induction l generalizing seen with
  | nil => simp [dedupKeepFirstAux]
  | cons x xs ih =>
    rw [dedupKeepFirstAux]
    split
    · rename_i hc
      rw [ih seen]
      constructor
      · rintro ⟨hy, hns⟩
        exact ⟨List.mem_cons_of_mem _ hy, hns⟩
      · rintro ⟨hy, hns⟩
        rcases List.mem_cons.mp hy with rfl | hy2
        · exact absurd ((contains_eq_true_iff seen y).mp hc) hns
        · exact ⟨hy2, hns⟩
    · rename_i hc
      have hxs : x ∉ seen := fun hm => hc ((contains_eq_true_iff seen x).mpr hm)
      simp only [List.mem_cons]
      rw [ih (seen ++ [x])]
      constructor
      · rintro (rfl | ⟨hy, hns⟩)
        · exact ⟨Or.inl rfl, hxs⟩
        · refine ⟨Or.inr hy, fun hm => hns (List.mem_append_left _ hm)⟩
      · rintro ⟨rfl | hy, hns⟩
        · exact Or.inl rfl
        · by_cases hxy : y = x
          · exact Or.inl hxy
          · refine Or.inr ⟨hy, fun hm => ?_⟩
            rcases List.mem_append.mp hm with h | h
            · exact hns h
            · simp only [List.mem_singleton] at h
              exact hxy h

theorem dedupKeepFirstAux_nodup (seen l : List String) :
    (dedupKeepFirstAux seen l).Nodup := by
  induction l generalizing seen with
  | nil => simp [dedupKeepFirstAux]
  | cons x xs ih =>
    rw [dedupKeepFirstAux]
    split
    · exact ih seen
    · refine List.nodup_cons.mpr ⟨fun hm => ?_, ih (seen ++ [x])⟩
      rw [mem_dedupKeepFirstAux] at hm
      exact hm.2 (List.mem_append_right _ (by simp))

theorem dedupKeepFirstAux_congr (seen1 seen2 : List String)
    (h : ∀ x, x ∈ seen1 ↔ x ∈ seen2) (l : List String) :
    dedupKeepFirstAux seen1 l = dedupKeepFirstAux seen2 l := by
  induction l generalizing seen1 seen2 with
  | nil => simp [dedupKeepFirstAux]
  | cons x xs ih =>
    rw [dedupKeepFirstAux, dedupKeepFirstAux]
    have hc : seen1.contains x = seen2.contains x := by
      cases h1 : seen1.contains x with
      | true =>
        exact ((contains_eq_true_iff seen2 x).mpr
          ((h x).mp ((contains_eq_true_iff seen1 x).mp h1))).symm
      | false =>
        cases h2 : seen2.contains x with
        | false => rfl
        | true =>
          have := (contains_eq_true_iff seen1 x).mpr
            ((h x).mpr ((contains_eq_true_iff seen2 x).mp h2))
          rw [h1] at this
          exact this
    rw [hc]
    split
    · exact ih seen1 seen2 h
    · rw [ih (seen1 ++ [x]) (seen2 ++ [x]) (by intro y; simp [h y])]

theorem dedupKeepFirstAux_filter (seen : List String) (x : String)
    (l : List String) :
    dedupKeepFirstAux (seen ++ [x]) l
      = dedupKeepFirstAux seen (l.filter (fun y => !(y == x))) := by
  induction l generalizing seen with
  | nil => simp [dedupKeepFirstAux]
  | cons y ys ih =>
    rw [List.filter_cons]
    by_cases hxy : y = x
    · subst hxy
      rw [dedupKeepFirstAux]
      have hc : (seen ++ [y]).contains y = true :=
        (contains_eq_true_iff _ _).mpr (List.mem_append_right _ (by simp))
      rw [hc]
      simp only [beq_self_eq_true, Bool.not_true, Bool.false_eq_true, if_false]
      exact ih seen
    · have hfy : (!(y == x)) = true := by
        simp [hxy]
      rw [hfy]
      simp only [if_true]
      rw [dedupKeepFirstAux, dedupKeepFirstAux]
      have hc : (seen ++ [x]).contains y = seen.contains y := by
        cases h1 : seen.contains y with
        | true =>
          exact (contains_eq_true_iff _ _).mpr
            (List.mem_append_left _ ((contains_eq_true_iff seen y).mp h1))
        | false =>
          cases h2 : (seen ++ [x]).contains y with
          | false => rfl
          | true =>
            rcases List.mem_append.mp ((contains_eq_true_iff _ _).mp h2) with hmm | hmm
            · rw [(contains_eq_true_iff seen y).mpr hmm] at h1
              exact h1
            · simp only [List.mem_singleton] at hmm
              exact absurd hmm hxy
      rw [hc]
      split
      · exact ih seen
      · rw [← ih (seen ++ [y])]
        rw [dedupKeepFirstAux_congr (seen ++ [x] ++ [y]) (seen ++ [y] ++ [x])
          (by intro z; simp; tauto) ys]

theorem dedupKeepFirst_cons (x : String) (xs : List String) :
    dedupKeepFirst (x :: xs)
      = x :: dedupKeepFirst (xs.filter (fun y => !(y == x))) := by
  rw [dedupKeepFirst, dedupKeepFirst, dedupKeepFirstAux]
  have hc : ([] : List String).contains x = false := rfl
  rw [hc]
  simp only [Bool.false_eq_true, if_false]
  rw [dedupKeepFirstAux_filter [] x xs]

/-- Counterexample to C9 as stated: the user ignore argument `"a a"` parses
to `["a", "a"]`, and `parse_query` appends it to the defaults without any
deduplication — the constructed query holds a duplicated ignore-pattern
list (parse_query.py:260-263 only `extend`; deduplication happens solely
inside `parse_gitignore`). -/
theorem c9_duplicate_patterns_counterexample :
    parseQueryLocal [] "/p" 10 none (some ["a a"]) none
      = Except.ok ⟨"/p", "p", "/", 10, ["a", "a"], none⟩
    ∧ ¬ (["a", "a"] : List String).Nodup := by
  constructor
  · rfl
  · decide

/-- C9 amended: only the ignore-file-derived list is deduplicated — 
`parse_gitignore` returns its raw expansion with duplicates removed,
keeping the first occurrence of each pattern in order (an order-preserving
sublist of the raw expansion with the same members, and the head is always
kept first, as `list(dict.fromkeys(...))` does); the merged query lists may
still contain duplicates (see the counterexample). -/
theorem c9_amended_gitignore_dedup (lines : List String) :
    (parseGitignoreLines lines).Nodup
    ∧ (parseGitignoreLines lines).Sublist (gitignoreRawPatterns lines)
    ∧ (∀ x, x ∈ parseGitignoreLines lines ↔ x ∈ gitignoreRawPatterns lines)
    ∧ (∀ (x : String) (xs : List String),
        dedupKeepFirst (x :: xs)
          = x :: dedupKeepFirst (xs.filter (fun y => !(y == x)))) := by
  refine ⟨dedupKeepFirstAux_nodup [] _, dedupKeepFirstAux_sublist [] _, ?_,
    dedupKeepFirst_cons⟩
  intro x
  rw [parseGitignoreLines, dedupKeepFirst, mem_dedupKeepFirstAux]
  simp
